import Mathlib

/-!
Verification of the binary record decoder/encoder layer of the
`miseqinteropreader` repository (Illumina InterOp metric files).

The development shallowly embeds the Python sources:

* `src/miseqinteropreader/read_records.py` — the `BinaryFormat` registry,
  the generic `read_records` chunker and the per-format readers
  (`read_errors`, `read_tiles`, `read_quality`,
  `read_corrected_intensities`, `read_extractions`);
* `src/miseqinteropreader/interoptestgenerator/gen_data.py` — the
  record generators (`generate_binary` / `gen_header` / `write_file`);
* `src/miseqinteropreader/models.py` and `src/interop_reader/models.py` —
  the record models (validation, float-tolerant equality, the derived
  extraction timestamp) and the summary models.

Byte streams are `List Nat` with each element a byte value.  Machine
integers are `Nat` with explicit bounds; a 32-bit float field is carried
as its 4-byte little-endian IEEE-754 bit pattern (struct.pack writes and
struct.unpack reads exactly those bytes, so at the byte level the field
is a 32-bit word).  Python exceptions are modelled as explicit error
values; the distinct `IOError` raise sites of `read_records` (the spec
taxonomy's `FormatVersionError` and `TruncatedRecordError`) are distinct
constructors.
-/

/-- Field kinds appearing in the struct format strings of
`BinaryFormat` in `read_records.py`: `H` (u16), `L`/`I` (u32),
`Q` (u64), `f` (32-bit float, carried as its bit pattern). -/
inductive FieldTy where
  | u16
  | u32
  | u64
  | f32
  deriving DecidableEq, Repr

/-- Byte width of one field, as `struct.calcsize` counts it. -/
def FieldTy.width : FieldTy → Nat
  | .u16 => 2
  | .u32 => 4
  | .u64 => 8
  | .f32 => 4

/-- Total byte size of a record layout (`struct.calcsize` of the format
string without its endianness marker). -/
def sumWidths (fields : List FieldTy) : Nat :=
  (fields.map FieldTy.width).sum

/-- Little-endian encoding of `v` on `w` bytes, as `struct.pack` lays
out an in-range unsigned integer (or a float bit pattern) with the `<`
marker. -/
def packLE : Nat → Nat → List Nat
  | 0, _ => []
  | w + 1, v => v % 256 :: packLE w (v / 256)

/-- Little-endian decoding of a byte list, inverse of `packLE`; this is
what `struct.unpack` computes from the field's bytes. -/
def unpackLE (bs : List Nat) : Nat :=
  bs.foldr (fun b acc => b + 256 * acc) 0

/-- Descriptor of one member of the `BinaryFormat` enum in
`read_records.py`: the parsed field list of its struct format string,
the stored `length` literal and the stored `min_version` literal. -/
structure FormatSpec where
  format : List FieldTy
  length : Nat
  min_version : Nat
  deriving DecidableEq, Repr

namespace BinaryFormat

/-- Registry entry `ERROR = ("<HHHfLLLLL", 30, 3)`. -/
def ERROR : FormatSpec :=
  ⟨[.u16, .u16, .u16, .f32, .u32, .u32, .u32, .u32, .u32], 30, 3⟩

/-- Registry entry `TILE = ("<HHHf", 10, 2)`. -/
def TILE : FormatSpec :=
  ⟨[.u16, .u16, .u16, .f32], 10, 2⟩

/-- Registry entry `QUALITY = ("<HHH" + "L" * 50, 206, 4)`. -/
def QUALITY : FormatSpec :=
  ⟨[.u16, .u16, .u16] ++ List.replicate 50 .u32, 206, 4⟩

/-- Registry entry
`CORRECTEDINTENSITY = ("<HHH" + "H" * 9 + "I" * 5 + "f", 48, 2)`. -/
def CORRECTEDINTENSITY : FormatSpec :=
  ⟨[.u16, .u16, .u16] ++ List.replicate 9 .u16 ++ List.replicate 5 .u32
      ++ [.f32], 48, 2⟩

/-- Registry entry `EXTRACTION = ("<HHHffffHHHHQ", 38, 2)`. -/
def EXTRACTION : FormatSpec :=
  ⟨[.u16, .u16, .u16, .f32, .f32, .f32, .f32, .u16, .u16, .u16, .u16,
      .u64], 38, 2⟩

/-- Registry entry `IMAGE = ("<HHHHHH", 12, 1)`. -/
def IMAGE : FormatSpec :=
  ⟨[.u16, .u16, .u16, .u16, .u16, .u16], 12, 1⟩

/-- Registry entry `PHASING = ("<HHHff", 14, 1)`. -/
def PHASING : FormatSpec :=
  ⟨[.u16, .u16, .u16, .f32, .f32], 14, 1⟩

end BinaryFormat

/-- Formats whose dedicated reader functions exist in
`read_records.py` (`read_errors`, `read_tiles`, `read_quality`,
`read_corrected_intensities`, `read_extractions`). -/
def decodableFormats : List FormatSpec :=
  [BinaryFormat.ERROR, BinaryFormat.TILE, BinaryFormat.QUALITY,
    BinaryFormat.CORRECTEDINTENSITY, BinaryFormat.EXTRACTION]

/-- Errors `read_records` and the per-format readers can raise.
`read_records` raises `IOError` at two distinct sites (the spec's
`FormatVersionError` and `TruncatedRecordError`); `struct.unpack`
raises `struct.error` when the header is shorter than two bytes
(`headerError`) or when a sliced chunk does not match the format size
(`structError`). -/
inductive DecodeError where
  | headerError
  | formatVersionError (version min_version : Nat)
  | truncatedRecordError (read_length : Nat)
  | structError
  deriving DecidableEq, Repr

/-- Outcome of draining one of the generator functions: the values it
yielded before terminating, and the exception it ended with, if any
(`none` models a clean `StopIteration`). -/
structure DecodeOutcome (α : Type) where
  records : List α
  error : Option DecodeError
  deriving DecidableEq, Repr

/-- Body loop of `read_records`: repeatedly `data = data_file.read(record_length)`;
zero bytes read breaks cleanly, a short non-empty read raises the
partial-record `IOError`, and a full read yields the chunk.  Note the
read size is the `record_length` that came out of the header. -/
def readBody (record_length : Nat) (body : List Nat) :
    DecodeOutcome (List Nat) :=
  let data := body.take record_length
  if h0 : data.length = 0 then
    ⟨[], none⟩
  else if data.length < record_length then
    ⟨[], some (.truncatedRecordError data.length)⟩
  else
    let rest := readBody record_length (body.drop record_length)
    ⟨data :: rest.records, rest.error⟩
termination_by body.length
decreasing_by
  simp only [List.length_drop]
  have hb : body.length ≠ 0 := by
    intro h
    simp [data, h] at h0
  have hr : record_length ≠ 0 := by
    intro h
    simp [data, h] at h0
  omega

theorem readBody_stop (rl : Nat) (bs : List Nat)
    (h0 : (bs.take rl).length = 0) :
    readBody rl bs = ⟨[], none⟩ := by
  rw [readBody]
  simp only []
  rw [dif_pos h0]

theorem readBody_trunc (rl : Nat) (bs : List Nat)
    (h0 : ¬ (bs.take rl).length = 0) (hlt : (bs.take rl).length < rl) :
    readBody rl bs
      = ⟨[], some (.truncatedRecordError (bs.take rl).length)⟩ := by
  rw [readBody]
  simp only []
  rw [dif_neg h0, if_pos hlt]

theorem readBody_yield (rl : Nat) (bs : List Nat)
    (h0 : ¬ (bs.take rl).length = 0) (hlt : ¬ (bs.take rl).length < rl) :
    readBody rl bs
      = ⟨bs.take rl :: (readBody rl (bs.drop rl)).records,
          (readBody rl (bs.drop rl)).error⟩ := by
  rw [readBody]
  simp only []
  rw [dif_neg h0, if_neg hlt]

/-- Embedding of `read_records(data_file, min_version)`: read two header
bytes, unpack them as `(version, record_length)`, fail when
`version < min_version`, then run the body loop.  A stream shorter than
two bytes makes the header `unpack` raise `struct.error`. -/
def read_records (stream : List Nat) (min_version : Nat) :
    DecodeOutcome (List Nat) :=
  match stream with
  | version :: record_length :: body =>
    if version < min_version then
      ⟨[], some (.formatVersionError version min_version)⟩
    else
      readBody record_length body
  | _ => ⟨[], some .headerError⟩

/-- Embedding of `struct.unpack` for one record format: consume each
field's bytes little-endian, requiring the byte list to have exactly
the format's size (otherwise `struct.error`, modelled as `none`). -/
def unpackFields : List FieldTy → List Nat → Option (List Nat)
  | [], [] => some []
  | [], _ :: _ => none
  | t :: ts, bs =>
    if bs.length < t.width then
      none
    else
      match unpackFields ts (bs.drop t.width) with
      | none => none
      | some vs => some (unpackLE (bs.take t.width) :: vs)

/-- Embedding of `struct.pack` for one record row whose values are in
range: concatenate each field's little-endian bytes. -/
def packRow (fields : List FieldTy) (row : List Nat) : List Nat :=
  (List.zipWith (fun t v => packLE t.width v) fields row).flatten

/-- Rows a generator produces are in range: one value per field, each
strictly below the field's bit-width bound (float fields carry 32-bit
patterns).  `struct.pack` raises on anything else. -/
def validRow (fields : List FieldTy) (row : List Nat) : Prop :=
  row.length = fields.length ∧
    ∀ p ∈ List.zip fields row, p.2 < 2 ^ (8 * p.1.width)

instance (fields : List FieldTy) (row : List Nat) :
    Decidable (validRow fields row) := by
  unfold validRow
  infer_instance

/-- Per-format reader (`read_errors`, `read_tiles`, ...): each chunk
yielded by `read_records` is sliced to the format's stored `length` and
unpacked; the record constructor stores the unpacked fields in order.
A failed unpack raises before later chunks are seen. -/
def unpackChunks (f : FormatSpec) :
    List (List Nat) → Option DecodeError → DecodeOutcome (List Nat)
  | [], e => ⟨[], e⟩
  | c :: cs, e =>
    match unpackFields f.format (c.take f.length) with
    | none => ⟨[], some .structError⟩
    | some vs =>
      let rest := unpackChunks f cs e
      ⟨vs :: rest.records, rest.error⟩

/-- Full decode pipeline of one format's reader function, producing the
field-value rows of the records it yields. -/
def decodeFormat (f : FormatSpec) (stream : List Nat) :
    DecodeOutcome (List Nat) :=
  let out := read_records stream f.min_version
  unpackChunks f out.records out.error

/-- Embedding of the generator side
(`BaseGenerator.write_file(file, None, generate_binary(rows))`): the
header is `pack("!BB", min_version, length)` — two bytes — followed by
each row packed with the format string. -/
def encodeFormat (f : FormatSpec) (rows : List (List Nat)) : List Nat :=
  f.min_version :: f.length :: (rows.map (packRow f.format)).flatten

/-! ### Byte-level helper lemmas -/

theorem packLE_length (w v : Nat) : (packLE w v).length = w := by
  induction w generalizing v with
  | zero => rfl
  | succ w ih => simp [packLE, ih]

theorem unpackLE_packLE (w v : Nat) (hv : v < 256 ^ w) :
    unpackLE (packLE w v) = v := by
  induction w generalizing v with
  | zero =>
    have : v = 0 := by
      have := hv
      simpa using this
    simp [this, packLE, unpackLE]
  | succ w ih =>
    have hdiv : v / 256 < 256 ^ w := by
      rw [Nat.div_lt_iff_lt_mul (by norm_num)]
      calc v < 256 ^ (w + 1) := hv
        _ = 256 ^ w * 256 := by ring
    have htail := ih (v / 256) hdiv
    simp only [packLE, unpackLE, List.foldr_cons]
    rw [show (packLE w (v / 256)).foldr (fun b acc => b + 256 * acc) 0
        = unpackLE (packLE w (v / 256)) from rfl, htail,
      Nat.mod_add_div]

theorem packRow_length (fields : List FieldTy) (row : List Nat)
    (hlen : row.length = fields.length) :
    (packRow fields row).length = sumWidths fields := by
  induction fields generalizing row with
  | nil =>
    have : row = [] := List.length_eq_zero.mp hlen
    simp [this, packRow, sumWidths]
  | cons t ts ih =>
    match row with
    | [] => simp at hlen
    | v :: vs =>
      have hlen2 : vs.length = ts.length := by simpa using hlen
      simp only [packRow, List.zipWith_cons_cons, List.flatten_cons,
        List.length_append, packLE_length, sumWidths, List.map_cons,
        List.sum_cons]
      have := ih vs hlen2
      simp only [packRow, sumWidths] at this
      omega

theorem unpackFields_packRow (fields : List FieldTy) (row : List Nat)
    (hv : validRow fields row) :
    unpackFields fields (packRow fields row) = some row := by
  obtain ⟨hlen, hrange⟩ := hv
  induction fields generalizing row with
  | nil =>
    have : row = [] := List.length_eq_zero.mp hlen
    simp [this, packRow, unpackFields]
  | cons t ts ih =>
    match row with
    | [] => simp at hlen
    | v :: vs =>
      have hlen2 : vs.length = ts.length := by simpa using hlen
      have hhead : v < 2 ^ (8 * t.width) := by
        exact hrange (t, v) (by simp [List.zip])
      have htail : ∀ p ∈ List.zip ts vs, p.2 < 2 ^ (8 * p.1.width) := by
        intro p hp
        apply hrange p
        simp only [List.zip_cons_cons, List.mem_cons]
        exact Or.inr hp
      have hbytes : packRow (t :: ts) (v :: vs)
          = packLE t.width v ++ packRow ts vs := by
        simp [packRow]
      rw [hbytes]
      have hwlen : (packLE t.width v).length = t.width := packLE_length _ _
      have htake : (packLE t.width v ++ packRow ts vs).take t.width
          = packLE t.width v := List.take_left' hwlen
      have hdrop : (packLE t.width v ++ packRow ts vs).drop t.width
          = packRow ts vs := List.drop_left' hwlen
      have hlong : ¬ (packLE t.width v ++ packRow ts vs).length < t.width := by
        simp only [List.length_append, hwlen]
        omega
      simp only [unpackFields, if_neg hlong, hdrop, ih vs hlen2 htail, htake]
      have h256 : v < 256 ^ t.width := by
        calc v < 2 ^ (8 * t.width) := hhead
          _ = 256 ^ t.width := by
            rw [pow_mul]
            norm_num
      rw [unpackLE_packLE _ _ h256]

/-- Chunker correctness on a whole number of records: a body that is the
concatenation of chunks of exactly the read size is yielded back chunk
by chunk with a clean stop. -/
theorem readBody_flatten (rl : Nat) (hrl : 0 < rl)
    (chunks : List (List Nat)) (hc : ∀ c ∈ chunks, c.length = rl) :
    readBody rl chunks.flatten = ⟨chunks, none⟩ := by
  induction chunks with
  | nil =>
    rw [readBody]
    simp
  | cons c cs ih =>
    have hclen : c.length = rl := hc c (by simp)
    have htake : (c ++ cs.flatten).take rl = c := by
      rw [← hclen]
      exact List.take_left _ _
    have hdrop : (c ++ cs.flatten).drop rl = cs.flatten := by
      rw [← hclen]
      exact List.drop_left _ _
    rw [readBody]
    simp only [List.flatten_cons, htake, hdrop, hclen]
    rw [dif_neg (by omega), if_neg (by omega),
      ih (fun d hd => hc d (by simp [hd]))]

/-- Unpacking packed rows recovers them: the per-format readers invert
the generator row by row when the registry entry is consistent. -/
theorem unpackChunks_packRows (f : FormatSpec)
    (hlen : f.length = sumWidths f.format)
    (rows : List (List Nat)) (hrows : ∀ r ∈ rows, validRow f.format r) :
    unpackChunks f (rows.map (packRow f.format)) none = ⟨rows, none⟩ := by
  induction rows with
  | nil => rfl
  | cons r rs ih =>
    have hr : validRow f.format r := hrows r (by simp)
    have hchunk : (packRow f.format r).take f.length = packRow f.format r := by
      rw [List.take_of_length_le]
      rw [packRow_length f.format r hr.1, hlen]
    simp only [List.map_cons, unpackChunks, hchunk,
      unpackFields_packRow f.format r hr]
    rw [ih (fun x hx => hrows x (by simp [hx]))]

/-- Round-trip at the level of one format with a consistent registry
entry: decoding the generator's output recovers exactly the encoded
rows, with a clean stop. -/
theorem decodeFormat_encodeFormat (f : FormatSpec)
    (hlen : f.length = sumWidths f.format) (hpos : 0 < f.length)
    (rows : List (List Nat)) (hrows : ∀ r ∈ rows, validRow f.format r) :
    decodeFormat f (encodeFormat f rows) = ⟨rows, none⟩ := by
  have hchunks : ∀ c ∈ rows.map (packRow f.format), c.length = f.length := by
    intro c hcmem
    obtain ⟨r, hr, rfl⟩ := List.mem_map.mp hcmem
    rw [packRow_length f.format r (hrows r hr).1, hlen]
  have hrr : read_records (encodeFormat f rows) f.min_version
      = ⟨rows.map (packRow f.format), none⟩ := by
    simp only [encodeFormat, read_records, if_neg (lt_irrefl f.min_version)]
    exact readBody_flatten f.length hpos _ hchunks
  simp only [decodeFormat, hrr]
  exact unpackChunks_packRows f hlen rows hrows

/-! ### Generator protocol model

Python generator functions (`read_records` and the `read_*` wrappers)
build a suspended generator object when called; the function body,
including the header read and version check, runs only when the first
element is requested.  The machine below models that protocol: `start`
is the freshly created generator holding the call arguments, and
`genNext` performs one `next()` call. -/

inductive GenState where
  | start (stream : List Nat) (min_version : Nat)
  | running (record_length : Nat) (rest : List Nat)
  | finished
  deriving DecidableEq, Repr

/-- Observable result of one `next()` call on a generator. -/
inductive StepResult where
  | yield (data : List Nat)
  | stop
  | raise (e : DecodeError)
  deriving DecidableEq, Repr

/-- Body-loop step shared by the first and later `next()` calls. -/
def stepBody (record_length : Nat) (body : List Nat) :
    GenState × StepResult :=
  let data := body.take record_length
  if data.length = 0 then (.finished, .stop)
  else if data.length < record_length then
    (.finished, .raise (.truncatedRecordError data.length))
  else (.running record_length (body.drop record_length), .yield data)

/-- One `next()` call: the first call reads and validates the header,
then takes a body step; later calls continue the body loop. -/
def genNext : GenState → GenState × StepResult
  | .start stream mv =>
    match stream with
    | b0 :: b1 :: body =>
      if b0 < mv then (.finished, .raise (.formatVersionError b0 mv))
      else stepBody b1 body
    | _ => (.finished, .raise .headerError)
  | .running rl rest => stepBody rl rest
  | .finished => (.finished, .stop)

/-- Calling `read_records(data_file, min_version)` itself: a generator
object capturing the arguments is returned; no byte is read and no
exception can be raised at this point. -/
def read_records_gen (stream : List Nat) (min_version : Nat) : GenState :=
  .start stream min_version

/-- Calling one of `read_errors` / `read_tiles` / `read_quality` /
`read_corrected_intensities` / `read_extractions`: these are themselves
generator functions delegating to `read_records` with the format's
minimum version, equally deferred. -/
def readFormatGen (f : FormatSpec) (stream : List Nat) : GenState :=
  read_records_gen stream f.min_version

/-- Fuel-driven drain of a generator, collecting what it yields and how
it terminates. -/
def runGen : Nat → GenState → DecodeOutcome (List Nat)
  | 0, _ => ⟨[], none⟩
  | fuel + 1, s =>
    match genNext s with
    | (_, .stop) => ⟨[], none⟩
    | (_, .raise e) => ⟨[], some e⟩
    | (s2, .yield d) =>
      let rest := runGen fuel s2
      ⟨d :: rest.records, rest.error⟩

theorem stepBody_stop (rl : Nat) (bs : List Nat)
    (h0 : (bs.take rl).length = 0) :
    stepBody rl bs = (.finished, .stop) := by
  simp only [stepBody]
  rw [if_pos h0]

theorem stepBody_trunc (rl : Nat) (bs : List Nat)
    (h0 : ¬ (bs.take rl).length = 0) (hlt : (bs.take rl).length < rl) :
    stepBody rl bs
      = (.finished, .raise (.truncatedRecordError (bs.take rl).length)) := by
  simp only [stepBody]
  rw [if_neg h0, if_pos hlt]

theorem stepBody_yield (rl : Nat) (bs : List Nat)
    (h0 : ¬ (bs.take rl).length = 0) (hlt : ¬ (bs.take rl).length < rl) :
    stepBody rl bs = (.running rl (bs.drop rl), .yield (bs.take rl)) := by
  simp only [stepBody]
  rw [if_neg h0, if_neg hlt]

theorem genNext_running (rl : Nat) (bs : List Nat) :
    genNext (.running rl bs) = stepBody rl bs := rfl

theorem runGen_of_stop (fuel : Nat) (s s2 : GenState)
    (h : genNext s = (s2, .stop)) : runGen (fuel + 1) s = ⟨[], none⟩ := by
  simp only [runGen, h]

theorem runGen_of_raise (fuel : Nat) (s s2 : GenState) (e : DecodeError)
    (h : genNext s = (s2, .raise e)) :
    runGen (fuel + 1) s = ⟨[], some e⟩ := by
  simp only [runGen, h]

theorem runGen_of_yield (fuel : Nat) (s s2 : GenState) (d : List Nat)
    (h : genNext s = (s2, .yield d)) :
    runGen (fuel + 1) s
      = ⟨d :: (runGen fuel s2).records, (runGen fuel s2).error⟩ := by
  simp only [runGen, h]

/-- Driving the body loop of the generator machine reproduces the
direct embedding `readBody`, given enough fuel. -/
theorem runGen_readBody (fuel : Nat) :
    ∀ (rl : Nat) (bs : List Nat), bs.length < fuel →
      runGen fuel (.running rl bs) = readBody rl bs := by
  induction fuel with
  | zero =>
    intro rl bs h
    exact absurd h (Nat.not_lt_zero _)
  | succ fuel ih =>
    intro rl bs hfuel
    by_cases h0 : (bs.take rl).length = 0
    · rw [runGen_of_stop fuel _ _
        ((genNext_running rl bs).trans (stepBody_stop rl bs h0)),
        readBody_stop rl bs h0]
    · by_cases hlt : (bs.take rl).length < rl
      · rw [runGen_of_raise fuel _ _ _
          ((genNext_running rl bs).trans (stepBody_trunc rl bs h0 hlt)),
          readBody_trunc rl bs h0 hlt]
      · have hrl : 0 < rl := by
          rcases Nat.eq_zero_or_pos rl with h | h
          · simp [h] at h0
          · exact h
        have hne : bs.length ≠ 0 := by
          intro h
          simp [List.length_take, h] at h0
        have hlen : (bs.drop rl).length < fuel := by
          simp only [List.length_drop]
          omega
        rw [runGen_of_yield fuel _ _ _
          ((genNext_running rl bs).trans (stepBody_yield rl bs h0 hlt)),
          readBody_yield rl bs h0 hlt, ih rl (bs.drop rl) hlen]

/-- Draining the suspended generator reproduces the direct embedding of
`read_records`: the machine and `read_records` agree on every stream. -/
theorem runGen_read_records (b0 b1 : Nat) (body : List Nat) (mv : Nat) :
    runGen (body.length + 1) (read_records_gen (b0 :: b1 :: body) mv)
      = read_records (b0 :: b1 :: body) mv := by
  by_cases hv : b0 < mv
  · have hg : genNext (.start (b0 :: b1 :: body) mv)
        = (.finished, .raise (.formatVersionError b0 mv)) := by
      simp only [genNext]
      rw [if_pos hv]
    rw [read_records_gen, runGen_of_raise body.length _ _ _ hg]
    simp only [read_records]
    rw [if_pos hv]
  · have hg : genNext (.start (b0 :: b1 :: body) mv) = stepBody b1 body := by
      simp only [genNext]
      rw [if_neg hv]
    have hrr : read_records (b0 :: b1 :: body) mv = readBody b1 body := by
      simp only [read_records]
      rw [if_neg hv]
    rw [hrr, read_records_gen]
    by_cases h0 : (body.take b1).length = 0
    · rw [runGen_of_stop body.length _ _
        (hg.trans (stepBody_stop b1 body h0)), readBody_stop b1 body h0]
    · by_cases hlt : (body.take b1).length < b1
      · rw [runGen_of_raise body.length _ _ _
          (hg.trans (stepBody_trunc b1 body h0 hlt)),
          readBody_trunc b1 body h0 hlt]
      · have hne : body.length ≠ 0 := by
          intro h
          simp [List.length_take, h] at h0
        have hrl : 0 < b1 := by
          rcases Nat.eq_zero_or_pos b1 with h | h
          · simp [h] at h0
          · exact h
        have hlen : (body.drop b1).length < body.length := by
          simp only [List.length_drop]
          omega
        rw [runGen_of_yield body.length _ _ _
          (hg.trans (stepBody_yield b1 body h0 hlt)),
          readBody_yield b1 body h0 hlt,
          runGen_readBody body.length b1 (body.drop b1) hlen]

/-! ### Claim theorems: decoder layer -/

/-- Claim C1 (confirmed).  For every metric format that has both an
encoder and a decoder (error, tile, quality, corrected-intensity,
extraction), decoding the byte stream produced by encoding a sequence
of valid rows — the `(min_version, length)` header followed by each row
packed little-endian per the format — yields exactly one record per
row, with field values equal to the original row values, and a clean
stop.  Float fields are compared at the level of their 32-bit patterns,
which the byte stream carries exactly. -/
theorem decode_encode_roundtrip :
    ∀ f ∈ decodableFormats, ∀ rows : List (List Nat),
      (∀ r ∈ rows, validRow f.format r) →
      decodeFormat f (encodeFormat f rows) = ⟨rows, none⟩ := by
  intro f hf rows hrows
  fin_cases hf <;>
    exact decodeFormat_encodeFormat _ (by decide) (by decide) rows hrows

/-- Witness for C1: a concrete tile row survives the round trip. -/
theorem decode_encode_roundtrip_witness :
    decodeFormat BinaryFormat.TILE
        (encodeFormat BinaryFormat.TILE [[1, 2, 3, 77]])
      = ⟨[[1, 2, 3, 77]], none⟩ :=
  decode_encode_roundtrip BinaryFormat.TILE (by decide) [[1, 2, 3, 77]]
    (by decide)

/-- Claim C2 counterexample.  The claim says the decoder reads
`layout.fixed_record_length` bytes per record and that the header's
`record_length` byte does not determine the read size.  On a tile
stream whose header declares `record_length = 12`, `read_records`
yields one 12-byte chunk — not the layout's 10 bytes — and the decoder
still succeeds, because the read size is the header byte and the layout
length is only used to slice each chunk before unpacking. -/
theorem read_size_from_header_counterexample :
    decodeFormat BinaryFormat.TILE (2 :: 12 :: List.replicate 12 0)
        = ⟨[[0, 0, 0, 0]], none⟩
    ∧ (read_records (2 :: 12 :: List.replicate 12 0)
          BinaryFormat.TILE.min_version).records.map List.length = [12]
    ∧ BinaryFormat.TILE.length = 10 := by
  have h12 : read_records (2 :: 12 :: List.replicate 12 0)
      BinaryFormat.TILE.min_version = ⟨[List.replicate 12 0], none⟩ := by
    have hf := readBody_flatten 12 (by norm_num) [List.replicate 12 0]
      (by simp)
    simp only [read_records]
    rw [if_neg (by decide)]
    simpa using hf
  refine ⟨?_, by rw [h12]; decide, rfl⟩
  simp only [decodeFormat, h12]
  decide

/-- Claim C2 as amended.  For every fixed-width format and every input
stream, the decoder reads the header's declared `record_length` bytes
per record: every chunk `read_records` yields has exactly the length
taken from the second header byte; `layout.length` only bounds the
slice passed to `struct.unpack`. -/
theorem read_size_from_header (mv b0 b1 : Nat) (body : List Nat)
    (hv : ¬ b0 < mv) :
    ∀ c ∈ (read_records (b0 :: b1 :: body) mv).records, c.length = b1 := by
  have H : ∀ n (bs : List Nat), bs.length = n →
      ∀ c ∈ (readBody b1 bs).records, c.length = b1 := by
    intro n
    induction n using Nat.strong_induction_on with
    | _ n ih =>
      intro bs hlen c hc
      by_cases h0 : (bs.take b1).length = 0
      · rw [readBody_stop b1 bs h0] at hc
        simp at hc
      · by_cases hlt : (bs.take b1).length < b1
        · rw [readBody_trunc b1 bs h0 hlt] at hc
          simp at hc
        · rw [readBody_yield b1 bs h0 hlt] at hc
          simp only [List.mem_cons] at hc
          rcases hc with rfl | hc
          · have h1 : (bs.take b1).length ≤ b1 := by
              rw [List.length_take]
              exact Nat.min_le_left _ _
            omega
          · have hb1 : 0 < b1 := by
              rcases Nat.eq_zero_or_pos b1 with h | h
              · simp [h] at h0
              · exact h
            have hne : bs.length ≠ 0 := by
              intro h
              simp [List.length_take, h] at h0
            exact ih (bs.drop b1).length
              (by simp only [List.length_drop]; omega)
              (bs.drop b1) rfl c hc
  intro c hc
  simp only [read_records, if_neg hv] at hc
  exact H body.length body rfl c hc

/-- Witness for the amended C2: with a header declaring 12-byte records
the single yielded chunk has length 12, the header byte. -/
theorem read_size_from_header_witness :
    (List.replicate 12 (0 : Nat)).length = 12 :=
  read_size_from_header 2 2 12 (List.replicate 12 0) (by norm_num)
    (List.replicate 12 0)
    (by
      have hf := readBody_flatten 12 (by norm_num) [List.replicate 12 0]
        (by simp)
      simp only [read_records]
      rw [if_neg (by decide),
        show readBody 12 (List.replicate 12 0)
            = ⟨[List.replicate 12 0], none⟩ from by simpa using hf]
      simp)

/-- Claim C4 (confirmed).  For every format with a reader and every
stream whose 2-byte header carries a version strictly below that
format's minimum version, decoding fails with the version-gate error
(the `IOError` raised before the body loop, the spec's
`FormatVersionError`) and no record is yielded. -/
theorem version_below_min_rejected :
    ∀ f ∈ decodableFormats, ∀ (b0 b1 : Nat) (rest : List Nat),
      b0 < f.min_version →
      decodeFormat f (b0 :: b1 :: rest)
        = ⟨[], some (.formatVersionError b0 f.min_version)⟩ := by
  intro f _ b0 b1 rest hv
  simp only [decodeFormat, read_records]
  rw [if_pos hv]
  rfl

/-- Witness for C4: a version-2 header on the error format (minimum
version 3) is rejected with no records. -/
theorem version_below_min_rejected_witness :
    decodeFormat BinaryFormat.ERROR (2 :: 30 :: [])
      = ⟨[], some (.formatVersionError 2 BinaryFormat.ERROR.min_version)⟩ :=
  version_below_min_rejected BinaryFormat.ERROR (by decide) 2 30 []
    (by decide)

/-- Body-loop characterization used by claim C5: splitting the body as
`k` full records plus `r` leftover bytes (`r < record_length`), the
loop yields exactly the `k` full records and then stops cleanly when
`r = 0` or raises the partial-record error for the `r` leftover bytes
otherwise. -/
theorem readBody_split (rl : Nat) (hrl : 0 < rl) :
    ∀ (k r : Nat) (body : List Nat), r < rl → body.length = k * rl + r →
      (readBody rl body).records.length = k
      ∧ (readBody rl body).records.flatten = body.take (k * rl)
      ∧ (readBody rl body).error
          = (if r = 0 then none else some (.truncatedRecordError r))
      ∧ ∀ c ∈ (readBody rl body).records, c.length = rl := by
  intro k
  induction k with
  | zero =>
    intro r body hr hlen
    simp only [Nat.zero_mul, Nat.zero_add] at hlen
    by_cases hz : r = 0
    · have hbody : body = [] := by
        rw [← List.length_eq_zero]
        omega
      subst hbody
      rw [readBody_stop rl [] (by simp)]
      simp [hz]
    · have htl : (body.take rl).length = r := by
        rw [List.length_take]
        omega
      rw [readBody_trunc rl body (by omega) (by omega)]
      simp [htl, hz]
  | succ k ih =>
    intro r body hr hlen
    have htl : (body.take rl).length = rl := by
      rw [List.length_take]
      have : rl ≤ body.length := by
        calc rl ≤ (k + 1) * rl := Nat.le_mul_of_pos_left rl (by omega)
          _ ≤ body.length := by omega
      omega
    have hdl : (body.drop rl).length = k * rl + r := by
      simp only [List.length_drop]
      have : (k + 1) * rl = k * rl + rl := by ring
      omega
    obtain ⟨ihl, ihf, ihe, ihc⟩ := ih r (body.drop rl) hr hdl
    rw [readBody_yield rl body (by omega) (by omega)]
    refine ⟨by simpa using ihl, ?_, by simpa using ihe, ?_⟩
    · have hksucc : (k + 1) * rl = rl + k * rl := by ring
      simp only [List.flatten_cons, ihf, hksucc, List.take_add]
    · intro c hc
      simp only [List.mem_cons] at hc
      rcases hc with rfl | hc
      · exact htl
      · exact ihc c hc

/-- Unpacking succeeds on any byte chunk of exactly the format's size:
`struct.unpack` only fails on a size mismatch. -/
theorem unpackFields_exists (fields : List FieldTy) :
    ∀ bs : List Nat, bs.length = sumWidths fields →
      ∃ vs, unpackFields fields bs = some vs := by
  induction fields with
  | nil =>
    intro bs h
    have hbs : bs = [] := by
      rw [← List.length_eq_zero]
      simpa [sumWidths] using h
    subst hbs
    exact ⟨[], rfl⟩
  | cons t ts ih =>
    intro bs h
    have hlen : bs.length = t.width + sumWidths ts := by
      simpa [sumWidths] using h
    have hge : ¬ bs.length < t.width := by omega
    have hdrop : (bs.drop t.width).length = sumWidths ts := by
      simp only [List.length_drop]
      omega
    obtain ⟨vs, hvs⟩ := ih (bs.drop t.width) hdrop
    refine ⟨unpackLE (bs.take t.width) :: vs, ?_⟩
    simp only [unpackFields, if_neg hge, hvs]

/-- Per-format unpacking of full-size chunks yields one record per
chunk and passes the chunker's terminal through. -/
theorem unpackChunks_length (f : FormatSpec)
    (hlen : f.length = sumWidths f.format) :
    ∀ (chunks : List (List Nat)) (e : Option DecodeError),
      (∀ c ∈ chunks, c.length = f.length) →
      (unpackChunks f chunks e).records.length = chunks.length
      ∧ (unpackChunks f chunks e).error = e := by
  intro chunks
  induction chunks with
  | nil => intro e _; exact ⟨rfl, rfl⟩
  | cons c cs ih =>
    intro e hc
    have hclen : c.length = f.length := hc c (by simp)
    have htake : c.take f.length = c :=
      List.take_of_length_le (by omega)
    have hsz : (c.take f.length).length = sumWidths f.format := by
      rw [htake, hclen, hlen]
    obtain ⟨vs, hvs⟩ := unpackFields_exists f.format (c.take f.length) hsz
    obtain ⟨ih1, ih2⟩ := ih e (fun d hd => hc d (by simp [hd]))
    simp only [unpackChunks, hvs]
    exact ⟨by simp [ih1], ih2⟩

/-- Claim C5 (confirmed).  Part one, at the chunker level: with the
version gate passed and the body holding `k` full records plus `r`
leftover bytes (`0 ≤ r < record_length`), `read_records` yields exactly
the `k` full records (their concatenation is the body up to the last
record boundary); if `r = 0` it then stops cleanly with no error, and
if `1 ≤ r ≤ record_length - 1` it then fails with the partial-record
error (the spec's `TruncatedRecordError`).  Part two, at the record
level: for every format with a reader, on a stream whose header carries
the format's record length, the reader yields exactly `k` decoded
records and terminates the same way. -/
theorem truncation_behavior :
    (∀ (mv b0 b1 k r : Nat) (body : List Nat),
      ¬ b0 < mv → 0 < b1 → r < b1 → body.length = k * b1 + r →
      (r = 0 →
        (read_records (b0 :: b1 :: body) mv).error = none
        ∧ (read_records (b0 :: b1 :: body) mv).records.length = k
        ∧ (read_records (b0 :: b1 :: body) mv).records.flatten = body)
      ∧ (0 < r →
        (read_records (b0 :: b1 :: body) mv).error
            = some (.truncatedRecordError r)
        ∧ (read_records (b0 :: b1 :: body) mv).records.length = k
        ∧ (read_records (b0 :: b1 :: body) mv).records.flatten
            = body.take (k * b1)))
    ∧ (∀ f ∈ decodableFormats, ∀ (b0 k r : Nat) (body : List Nat),
      ¬ b0 < f.min_version → r < f.length →
      body.length = k * f.length + r →
      (r = 0 →
        (decodeFormat f (b0 :: f.length :: body)).error = none
        ∧ (decodeFormat f (b0 :: f.length :: body)).records.length = k)
      ∧ (0 < r →
        (decodeFormat f (b0 :: f.length :: body)).error
            = some (.truncatedRecordError r)
        ∧ (decodeFormat f (b0 :: f.length :: body)).records.length = k)) := by
  constructor
  · intro mv b0 b1 k r body hv hb1 hr hlen
    have hrr : read_records (b0 :: b1 :: body) mv = readBody b1 body := by
      simp only [read_records]
      rw [if_neg hv]
    obtain ⟨hl, hf, he, _⟩ := readBody_split b1 hb1 k r body hr hlen
    constructor
    · intro hz
      subst hz
      refine ⟨by rw [hrr, he]; simp, by rw [hrr, hl], ?_⟩
      rw [hrr, hf]
      apply List.take_of_length_le
      omega
    · intro hpos
      refine ⟨?_, by rw [hrr, hl], by rw [hrr, hf]⟩
      rw [hrr, he, if_neg (by omega)]
  · intro f hf b0 k r body hv hr hlen
    have hsum : f.length = sumWidths f.format := by
      fin_cases hf <;> decide
    have hpos : 0 < f.length := by
      fin_cases hf <;> decide
    have hrr : read_records (b0 :: f.length :: body) f.min_version
        = readBody f.length body := by
      simp only [read_records]
      rw [if_neg hv]
    obtain ⟨hl, _, he, hc⟩ := readBody_split f.length hpos k r body hr hlen
    obtain ⟨hul, hue⟩ := unpackChunks_length f hsum
      (readBody f.length body).records (readBody f.length body).error hc
    constructor
    · intro hz
      subst hz
      constructor
      · rw [decodeFormat, hrr, hue, he]
        simp
      · rw [decodeFormat, hrr, hul, hl]
    · intro hpos2
      constructor
      · rw [decodeFormat, hrr, hue, he, if_neg (by omega)]
      · rw [decodeFormat, hrr, hul, hl]

/-- Witness for C5: a 2-byte record length with a 3-byte body yields
one full record and then the partial-record error for the 1 leftover
byte. -/
theorem truncation_behavior_witness :
    (read_records (2 :: 2 :: [5, 6, 7]) 2).error
        = some (.truncatedRecordError 1)
    ∧ (read_records (2 :: 2 :: [5, 6, 7]) 2).records.length = 1
    ∧ (read_records (2 :: 2 :: [5, 6, 7]) 2).records.flatten
        = [5, 6, 7].take (1 * 2) :=
  (truncation_behavior.1 2 2 2 1 1 [5, 6, 7] (by norm_num) (by norm_num)
    (by norm_num) (by norm_num)).2 (by norm_num)

/-- Claim C10 (confirmed).  Invoking a decode function (`read_records`
or any of the per-format readers) on any stream — including one whose
header version is below the format's minimum — returns a suspended
generator without raising: the state still holds the whole unread
stream, so no header read, version check or I/O has happened.  The
version error surfaces only when the first element is requested. -/
theorem decode_is_deferred :
    ∀ f ∈ decodableFormats, ∀ stream : List Nat,
      readFormatGen f stream = GenState.start stream f.min_version
      ∧ (∀ (b0 b1 : Nat) (rest : List Nat), stream = b0 :: b1 :: rest →
          b0 < f.min_version →
          genNext (readFormatGen f stream)
            = (.finished, .raise (.formatVersionError b0 f.min_version))) := by
  intro f _ stream
  refine ⟨rfl, ?_⟩
  intro b0 b1 rest hstream hv
  subst hstream
  simp only [readFormatGen, read_records_gen, genNext]
  rw [if_pos hv]

/-- Witness for C10: constructing the error-format reader on a
version-1 stream raises nothing; the first `next()` raises the version
error. -/
theorem decode_is_deferred_witness :
    readFormatGen BinaryFormat.ERROR [1, 30]
        = GenState.start [1, 30] BinaryFormat.ERROR.min_version
    ∧ genNext (readFormatGen BinaryFormat.ERROR [1, 30])
        = (.finished,
            .raise (.formatVersionError 1 BinaryFormat.ERROR.min_version)) :=
  ⟨(decode_is_deferred BinaryFormat.ERROR (by decide) [1, 30]).1,
    (decode_is_deferred BinaryFormat.ERROR (by decide) [1, 30]).2
      1 30 [] rfl (by decide)⟩

/-- Claim C3 counterexample.  The spec's known-formats table gives the
error format 20 bytes and the quality format 106 bytes; the registry
stores 30 and 206 (and the error layout has five `u32` counters, not
four). -/
theorem format_table_counterexample :
    BinaryFormat.ERROR.length = 30 ∧ (30 : Nat) ≠ 20
    ∧ BinaryFormat.QUALITY.length = 206 ∧ (206 : Nat) ≠ 106
    ∧ (BinaryFormat.ERROR.format.count .u32 = 5
        ∧ BinaryFormat.ERROR.format.count .u32 ≠ 4) := by
  refine ⟨rfl, by norm_num, rfl, by norm_num, by decide, by decide⟩

/-- Claim C3 as amended.  The registry's stored record lengths are:
error 30 (3 u16, 1 f32, 5 u32), tile 10, quality 206 (3 u16, 50 u32),
corrected-intensity 48, extraction 38, image 12, phasing 14 — and for
every format the stored length equals the byte size of its field
layout. -/
theorem format_table :
    BinaryFormat.ERROR.length = 30
    ∧ BinaryFormat.ERROR.format
        = [.u16, .u16, .u16, .f32, .u32, .u32, .u32, .u32, .u32]
    ∧ sumWidths BinaryFormat.ERROR.format = BinaryFormat.ERROR.length
    ∧ BinaryFormat.TILE.length = 10
    ∧ sumWidths BinaryFormat.TILE.format = BinaryFormat.TILE.length
    ∧ BinaryFormat.QUALITY.length = 206
    ∧ BinaryFormat.QUALITY.format
        = [.u16, .u16, .u16] ++ List.replicate 50 .u32
    ∧ sumWidths BinaryFormat.QUALITY.format = BinaryFormat.QUALITY.length
    ∧ BinaryFormat.CORRECTEDINTENSITY.length = 48
    ∧ sumWidths BinaryFormat.CORRECTEDINTENSITY.format
        = BinaryFormat.CORRECTEDINTENSITY.length
    ∧ BinaryFormat.EXTRACTION.length = 38
    ∧ sumWidths BinaryFormat.EXTRACTION.format
        = BinaryFormat.EXTRACTION.length
    ∧ BinaryFormat.IMAGE.length = 12
    ∧ sumWidths BinaryFormat.IMAGE.format = BinaryFormat.IMAGE.length
    ∧ BinaryFormat.PHASING.length = 14
    ∧ sumWidths BinaryFormat.PHASING.format = BinaryFormat.PHASING.length := by
  decide

/-! ### Record models: derived extraction timestamp (claim C6) -/

/-- Bitmask from `ExtractionRecord.datetime` in
`miseqinteropreader/models.py`: `sum([2**i for i in range(62)])`. -/
def extractionBitmask : Nat :=
  ((List.range 62).map (fun i => 2 ^ i)).sum

/-- Derived timestamp of the `miseqinteropreader` `ExtractionRecord`,
expressed as the count of 100 ns intervals added to
0001-01-01T00:00:00: the code masks the datestamp with
`extractionBitmask` and feeds the result, divided by 10, to
`timedelta(microseconds=...)` added to `datetime(1, 1, 1)`.  The unit
conversion into microseconds and back is taken exact here; the Python
code performs it in float arithmetic, which only affects sub-microsecond
rounding. -/
def extraction_datetime_100ns (datestamp : Nat) : Nat :=
  Nat.land datestamp extractionBitmask

/-- Number of 100 ns intervals from 0001-01-01T00:00:00 to the Unix
epoch 1970-01-01T00:00:00 (719162 days). -/
def unix_epoch_100ns : Nat := 621355968000000000

/-- Derived timestamp of the `interop_reader` `ExtractionRecord`, whose
`datetime` computed field is `datetime.fromtimestamp(self.datestamp)`:
the Unix epoch plus `datestamp` seconds, expressed in 100 ns intervals
since 0001-01-01T00:00:00 (the local-timezone offset of `fromtimestamp`
is ignored; it is hours, not centuries). -/
def extraction_datetime_ir_100ns (datestamp : Nat) : Nat :=
  unix_epoch_100ns + datestamp * 10000000

theorem extractionBitmask_eq : extractionBitmask = 2 ^ 62 - 1 := by decide

/-- Claim C6 counterexample.  The claim quantifies over every
`ExtractionRecord`, including the `interop_reader` one, whose derived
timestamp at datestamp 0 is the Unix epoch 1970-01-01 — not
0001-01-01T00:00:00 (offset 0) as the claim requires. -/
theorem extraction_datetime_counterexample :
    extraction_datetime_ir_100ns 0 ≠ 0 := by
  decide

/-- Claim C6 as amended.  For the `miseqinteropreader`
`ExtractionRecord`, the derived timestamp is 0001-01-01T00:00:00 plus
`datestamp mod 2^62` hundred-nanosecond intervals: datestamp 0 yields
exactly the base instant, and any two datestamps agreeing below the top
2 bits yield equal derived timestamps.  The `interop_reader`
`ExtractionRecord` instead interprets the datestamp as Unix-epoch
seconds with no masking: at datestamp 0 it yields 1970-01-01. -/
theorem extraction_datetime_masking :
    (∀ d : Nat, extraction_datetime_100ns d = d % 2 ^ 62)
    ∧ extraction_datetime_100ns 0 = 0
    ∧ (∀ d₁ d₂ : Nat, d₁ % 2 ^ 62 = d₂ % 2 ^ 62 →
        extraction_datetime_100ns d₁ = extraction_datetime_100ns d₂)
    ∧ extraction_datetime_ir_100ns 0 = unix_epoch_100ns := by
  have hmod : ∀ d : Nat, extraction_datetime_100ns d = d % 2 ^ 62 := by
    intro d
    rw [extraction_datetime_100ns, extractionBitmask_eq]
    exact Nat.and_pow_two_sub_one_eq_mod d 62
  refine ⟨hmod, by rw [hmod]; rfl, ?_, by simp [extraction_datetime_ir_100ns]⟩
  intro d₁ d₂ h
  rw [hmod, hmod, h]

/-- Witness for the amended C6: setting bit 62 (one of the top 2 bits
of the 64-bit datestamp) does not change the derived timestamp. -/
theorem extraction_datetime_masking_witness :
    extraction_datetime_100ns (2 ^ 62 + 5) = extraction_datetime_100ns 5 :=
  extraction_datetime_masking.2.2.1 (2 ^ 62 + 5) 5 (Nat.add_mod_left _ _)

/-! ### Record models: validating constructors (claim C7) -/

/-- Validation failures of the pydantic models: a negative value hits
the `assert_unsigned` validator, a histogram of the wrong size hits
`check_quality_record_length`.  Both surface as pydantic
`ValidationError` (the spec's `FieldValidationError`). -/
inductive FieldValidationError where
  | negativeField (field : String)
  | wrongHistogramLength (found : Nat)
  deriving DecidableEq, Repr

/-- Embedding of the `assert_unsigned` validator backing the `uint`
annotated type in `models.py`. -/
def assert_unsigned (field : String) (v : Int) :
    Except FieldValidationError Int :=
  if 0 ≤ v then .ok v else .error (.negativeField field)

/-- Embedding of `check_quality_record_length` in `models.py`:
`assert len(v) == 50`. -/
def check_quality_record_length (v : List Int) :
    Except FieldValidationError (List Int) :=
  if v.length = 50 then .ok v else .error (.wrongHistogramLength v.length)

/-- Field record of the `QualityRecord` model: `lane`, `tile`, `cycle`
(validated as `uint`) and the `quality_bins` histogram (validated for
its length only). -/
structure QualityRecord where
  lane : Int
  tile : Int
  cycle : Int
  quality_bins : List Int
  deriving DecidableEq, Repr

/-- Validating construction of a `QualityRecord`: pydantic runs the
`uint` validator on `lane`, `tile` and `cycle` and the length validator
on `quality_bins`; any failure aborts construction. -/
def mkQualityRecord (lane tile cycle : Int) (quality_bins : List Int) :
    Except FieldValidationError QualityRecord := do
  let lane ← assert_unsigned "lane" lane
  let tile ← assert_unsigned "tile" tile
  let cycle ← assert_unsigned "cycle" cycle
  let quality_bins ← check_quality_record_length quality_bins
  return ⟨lane, tile, cycle, quality_bins⟩

/-- Claim C7 (confirmed).  With non-negative integer fields,
constructing a `QualityRecord` succeeds exactly when the histogram has
50 bins, and otherwise (49, 51, ...) fails with the length validation
error. -/
theorem quality_record_histogram_invariant
    (lane tile cycle : Int) (bins : List Int)
    (hl : 0 ≤ lane) (ht : 0 ≤ tile) (hc : 0 ≤ cycle) :
    (bins.length = 50 →
      mkQualityRecord lane tile cycle bins = .ok ⟨lane, tile, cycle, bins⟩)
    ∧ (bins.length ≠ 50 →
      mkQualityRecord lane tile cycle bins
        = .error (.wrongHistogramLength bins.length)) := by
  constructor
  · intro h50
    simp only [mkQualityRecord, assert_unsigned, check_quality_record_length,
      if_pos hl, if_pos ht, if_pos hc, if_pos h50]
    rfl
  · intro hne
    simp only [mkQualityRecord, assert_unsigned, check_quality_record_length,
      if_pos hl, if_pos ht, if_pos hc, if_neg hne]
    rfl

/-- Witness for C7: 50 bins succeed; 49 and 51 bins fail with the
length error. -/
theorem quality_record_histogram_invariant_witness :
    mkQualityRecord 0 1 2 (List.replicate 50 0)
        = .ok ⟨0, 1, 2, List.replicate 50 0⟩
    ∧ mkQualityRecord 0 1 2 (List.replicate 49 0)
        = .error (.wrongHistogramLength 49)
    ∧ mkQualityRecord 0 1 2 (List.replicate 51 0)
        = .error (.wrongHistogramLength 51) := by
  refine ⟨?_, ?_, ?_⟩
  · exact (quality_record_histogram_invariant 0 1 2 (List.replicate 50 0)
      (by norm_num) (by norm_num) (by norm_num)).1 (by simp)
  · have h := (quality_record_histogram_invariant 0 1 2
      (List.replicate 49 0) (by norm_num) (by norm_num) (by norm_num)).2
      (by simp)
    simpa using h
  · have h := (quality_record_histogram_invariant 0 1 2
      (List.replicate 51 0) (by norm_num) (by norm_num) (by norm_num)).2
      (by simp)
    simpa using h

/-! ### Summary aggregators (claim C8)

Python float arithmetic is modelled over `ℚ` (exact field arithmetic);
the zero tests and divisions below mirror the source lines, not their
rounding. -/

/-- Summary model `TileMetricSummary` in `miseqinteropreader/models.py`
(running sums and counts; the derived ratios are computed properties). -/
structure TileMetricSummary where
  density_count : Int
  density_sum : ℚ
  total_clusters : ℚ
  passing_clusters : ℚ
  deriving DecidableEq, Repr

/-- Computed property `TileMetricSummary.pass_rate`: 0.0 when
`total_clusters == 0`, else `passing_clusters / total_clusters`. -/
def TileMetricSummary.pass_rate (s : TileMetricSummary) : ℚ :=
  if s.total_clusters = 0 then 0 else s.passing_clusters / s.total_clusters

/-- Computed property `TileMetricSummary.cluster_density`: 0.0 when
`density_count == 0`, else `density_sum / density_count`. -/
def TileMetricSummary.cluster_density (s : TileMetricSummary) : ℚ :=
  if s.density_count = 0 then 0 else s.density_sum / s.density_count

/-- Summary model `QualityMetricsSummary` in
`miseqinteropreader/models.py`. -/
structure QualityMetricsSummary where
  total_count : Int
  total_reverse : Int
  good_count : Int
  good_reverse : Int
  deriving DecidableEq, Repr

/-- Computed property `QualityMetricsSummary.q30_forward`. -/
def QualityMetricsSummary.q30_forward (s : QualityMetricsSummary) : ℚ :=
  if s.total_count = 0 then 0 else (s.good_count : ℚ) / (s.total_count : ℚ)

/-- Computed property `QualityMetricsSummary.q30_reverse`. -/
def QualityMetricsSummary.q30_reverse (s : QualityMetricsSummary) : ℚ :=
  if s.total_reverse = 0 then 0
  else (s.good_reverse : ℚ) / (s.total_reverse : ℚ)

/-- Summary model `ErrorMetricsSummary` in
`miseqinteropreader/models.py`. -/
structure ErrorMetricsSummary where
  error_sum_forward : ℚ
  error_count_forward : Int
  error_sum_reverse : ℚ
  error_count_reverse : Int
  deriving DecidableEq, Repr

/-- Computed property `ErrorMetricsSummary.error_rate_forward`. -/
def ErrorMetricsSummary.error_rate_forward (s : ErrorMetricsSummary) : ℚ :=
  if s.error_count_forward = 0 then 0
  else s.error_sum_forward / (s.error_count_forward : ℚ)

/-- Computed property `ErrorMetricsSummary.error_rate_reverse`. -/
def ErrorMetricsSummary.error_rate_reverse (s : ErrorMetricsSummary) : ℚ :=
  if s.error_count_reverse = 0 then 0
  else s.error_sum_reverse / (s.error_count_reverse : ℚ)

/-- Field values of a `TileMetricRecord` as the dict-based summarizer
in `interop_reader/tile_metrics_parser.py` consumes them. -/
structure TileMetricRecord where
  lane : Int
  tile : Int
  metric_code : Int
  metric_value : ℚ
  deriving DecidableEq, Repr

/-- Accumulator of the loop in `summarize_tile_records`. -/
structure TileAcc where
  density_sum : ℚ
  density_count : Int
  total_clusters : ℚ
  passing_clusters : ℚ
  deriving DecidableEq, Repr

/-- One loop iteration of `summarize_tile_records`: `metric_code` 100
(`CLUSTER_DENSITY`) feeds the density sum and count, 102
(`CLUSTER_COUNT`) the total clusters, 103
(`CLUSTER_COUNT_PASSING_FILTERS`) the passing clusters. -/
def tileAccStep (acc : TileAcc) (record : TileMetricRecord) : TileAcc :=
  if record.metric_code = 100 then
    { acc with density_sum := acc.density_sum + record.metric_value,
               density_count := acc.density_count + 1 }
  else if record.metric_code = 102 then
    { acc with total_clusters := acc.total_clusters + record.metric_value }
  else if record.metric_code = 103 then
    { acc with
        passing_clusters := acc.passing_clusters + record.metric_value }
  else acc

/-- Accumulation phase of `summarize_tile_records` over all records. -/
def tileFold (records : List TileMetricRecord) : TileAcc :=
  records.foldl tileAccStep ⟨0, 0, 0, 0⟩

/-- Keys `summarize_tile_records` may add to the caller's summary dict;
`none` models an absent key. -/
structure TileSummaryDict where
  cluster_density : Option ℚ
  pass_rate : Option ℚ
  deriving DecidableEq, Repr

/-- Embedding of `summarize_tile_records` in
`interop_reader/tile_metrics_parser.py`: after the loop, the ratios are
written only under `density_count > 0` respectively
`total_clusters > 0.0`. -/
def summarize_tile_records (records : List TileMetricRecord) :
    TileSummaryDict :=
  let acc := tileFold records
  { cluster_density :=
      if 0 < acc.density_count then some (acc.density_sum / acc.density_count)
      else none,
    pass_rate :=
      if 0 < acc.total_clusters
      then some (acc.passing_clusters / acc.total_clusters)
      else none }

/-- Row of a quality record as the dict-based summarizer in
`interop_reader/quality_metrics_parser.py` consumes it. -/
structure QualityRecordRow where
  cycle : Int
  quality_bins : List Int
  deriving DecidableEq, Repr

/-- Accumulator of the loop in `summarize_quality_records`. -/
structure QualityAcc where
  good_count : Int
  total_count : Int
  good_reverse : Int
  total_reverse : Int
  deriving DecidableEq, Repr

/-- One loop iteration of `summarize_quality_records`:
`cycle_clusters = sum(bins)`, `cycle_good = sum(bins[29:])`; a record
counts as forward when no read lengths were given or
`cycle <= last_forward_cycle`, as reverse when
`cycle >= first_reverse_cycle`, and is dropped otherwise. -/
def qualityAccStep (bounds : Option (Int × Int)) (acc : QualityAcc)
    (record : QualityRecordRow) : QualityAcc :=
  let cycle_clusters := record.quality_bins.sum
  let cycle_good := (record.quality_bins.drop 29).sum
  match bounds with
  | none =>
    { acc with total_count := acc.total_count + cycle_clusters,
               good_count := acc.good_count + cycle_good }
  | some (last_forward_cycle, first_reverse_cycle) =>
    if record.cycle ≤ last_forward_cycle then
      { acc with total_count := acc.total_count + cycle_clusters,
                 good_count := acc.good_count + cycle_good }
    else if first_reverse_cycle ≤ record.cycle then
      { acc with total_reverse := acc.total_reverse + cycle_clusters,
                 good_reverse := acc.good_reverse + cycle_good }
    else acc

/-- Forward/reverse cycle bounds from the optional `read_lengths` list
(non-empty, encoded as head and tail):
`last_forward_cycle = read_lengths[0]` and
`first_reverse_cycle = sum(read_lengths[:-1]) + 1`. -/
def qualityBounds (read_lengths : Option (Int × List Int)) :
    Option (Int × Int) :=
  read_lengths.map (fun rl => (rl.1, ((rl.1 :: rl.2).dropLast).sum + 1))

/-- Accumulation phase of `summarize_quality_records`. -/
def qualityFold (read_lengths : Option (Int × List Int))
    (records : List QualityRecordRow) : QualityAcc :=
  records.foldl (qualityAccStep (qualityBounds read_lengths)) ⟨0, 0, 0, 0⟩

/-- Keys `summarize_quality_records` may add to the caller's summary
dict; `none` models an absent key. -/
structure QualitySummaryDict where
  q30_fwd : Option ℚ
  q30_rev : Option ℚ
  deriving DecidableEq, Repr

/-- Embedding of `summarize_quality_records` in
`interop_reader/quality_metrics_parser.py`: after the loop, the
fractions are written only under `total_count > 0` respectively
`total_reverse > 0`. -/
def summarize_quality_records (records : List QualityRecordRow)
    (read_lengths : Option (Int × List Int)) : QualitySummaryDict :=
  let acc := qualityFold read_lengths records
  { q30_fwd :=
      if 0 < acc.total_count
      then some ((acc.good_count : ℚ) / (acc.total_count : ℚ))
      else none,
    q30_rev :=
      if 0 < acc.total_reverse
      then some ((acc.good_reverse : ℚ) / (acc.total_reverse : ℚ))
      else none }

/-- Claim C8 counterexample.  On an empty record sequence every
denominator is zero, yet the dict-based summarizers produce no defined
zero: the ratio keys are simply absent from the summary dict. -/
theorem summary_zero_denominator_counterexample :
    (summarize_tile_records []).pass_rate = none
    ∧ (summarize_tile_records []).cluster_density = none
    ∧ (summarize_quality_records [] none).q30_fwd = none
    ∧ (summarize_quality_records [] none).q30_rev = none := by
  refine ⟨rfl, rfl, rfl, rfl⟩

/-- Claim C8 as amended.  For the Summary value objects
(`TileMetricSummary`, `QualityMetricsSummary`, `ErrorMetricsSummary`)
each derived ratio is a defined zero whenever its denominator sum or
count is zero, and equals numerator divided by denominator otherwise —
no division by zero is ever attempted.  The dict-updating summarize
functions of `interop_reader` instead leave a ratio key unset whenever
its accumulated denominator is not positive, and set it to numerator
divided by denominator when it is positive. -/
theorem summary_ratio_zero_guard :
    (∀ s : TileMetricSummary,
      (s.total_clusters = 0 → s.pass_rate = 0)
      ∧ (s.total_clusters ≠ 0 →
          s.pass_rate = s.passing_clusters / s.total_clusters)
      ∧ (s.density_count = 0 → s.cluster_density = 0)
      ∧ (s.density_count ≠ 0 →
          s.cluster_density = s.density_sum / (s.density_count : ℚ)))
    ∧ (∀ s : QualityMetricsSummary,
      (s.total_count = 0 → s.q30_forward = 0)
      ∧ (s.total_count ≠ 0 →
          s.q30_forward = (s.good_count : ℚ) / (s.total_count : ℚ))
      ∧ (s.total_reverse = 0 → s.q30_reverse = 0)
      ∧ (s.total_reverse ≠ 0 →
          s.q30_reverse = (s.good_reverse : ℚ) / (s.total_reverse : ℚ)))
    ∧ (∀ s : ErrorMetricsSummary,
      (s.error_count_forward = 0 → s.error_rate_forward = 0)
      ∧ (s.error_count_forward ≠ 0 →
          s.error_rate_forward
            = s.error_sum_forward / (s.error_count_forward : ℚ))
      ∧ (s.error_count_reverse = 0 → s.error_rate_reverse = 0)
      ∧ (s.error_count_reverse ≠ 0 →
          s.error_rate_reverse
            = s.error_sum_reverse / (s.error_count_reverse : ℚ)))
    ∧ (∀ records : List TileMetricRecord,
      (¬ 0 < (tileFold records).total_clusters →
          (summarize_tile_records records).pass_rate = none)
      ∧ (0 < (tileFold records).total_clusters →
          (summarize_tile_records records).pass_rate
            = some ((tileFold records).passing_clusters
                / (tileFold records).total_clusters))
      ∧ (¬ 0 < (tileFold records).density_count →
          (summarize_tile_records records).cluster_density = none)
      ∧ (0 < (tileFold records).density_count →
          (summarize_tile_records records).cluster_density
            = some ((tileFold records).density_sum
                / ((tileFold records).density_count : ℚ))))
    ∧ (∀ (records : List QualityRecordRow)
        (read_lengths : Option (Int × List Int)),
      (¬ 0 < (qualityFold read_lengths records).total_count →
          (summarize_quality_records records read_lengths).q30_fwd = none)
      ∧ (0 < (qualityFold read_lengths records).total_count →
          (summarize_quality_records records read_lengths).q30_fwd
            = some (((qualityFold read_lengths records).good_count : ℚ)
                / ((qualityFold read_lengths records).total_count : ℚ)))
      ∧ (¬ 0 < (qualityFold read_lengths records).total_reverse →
          (summarize_quality_records records read_lengths).q30_rev = none)
      ∧ (0 < (qualityFold read_lengths records).total_reverse →
          (summarize_quality_records records read_lengths).q30_rev
            = some (((qualityFold read_lengths records).good_reverse : ℚ)
                / ((qualityFold read_lengths records).total_reverse : ℚ)))) := by
  refine ⟨?_, ?_, ?_, ?_, ?_⟩
  · intro s
    exact ⟨fun h => by rw [TileMetricSummary.pass_rate, if_pos h],
      fun h => by rw [TileMetricSummary.pass_rate, if_neg h],
      fun h => by rw [TileMetricSummary.cluster_density, if_pos h],
      fun h => by rw [TileMetricSummary.cluster_density,
        if_neg (by exact_mod_cast h)]⟩
  · intro s
    exact ⟨fun h => by rw [QualityMetricsSummary.q30_forward, if_pos h],
      fun h => by rw [QualityMetricsSummary.q30_forward, if_neg h],
      fun h => by rw [QualityMetricsSummary.q30_reverse, if_pos h],
      fun h => by rw [QualityMetricsSummary.q30_reverse, if_neg h]⟩
  · intro s
    exact ⟨fun h => by rw [ErrorMetricsSummary.error_rate_forward, if_pos h],
      fun h => by rw [ErrorMetricsSummary.error_rate_forward, if_neg h],
      fun h => by rw [ErrorMetricsSummary.error_rate_reverse, if_pos h],
      fun h => by rw [ErrorMetricsSummary.error_rate_reverse, if_neg h]⟩
  · intro records
    exact ⟨fun h => by rw [summarize_tile_records]; simp only [if_neg h],
      fun h => by rw [summarize_tile_records]; simp only [if_pos h],
      fun h => by rw [summarize_tile_records]; simp only [if_neg h],
      fun h => by rw [summarize_tile_records]; simp only [if_pos h]⟩
  · intro records read_lengths
    exact ⟨fun h => by rw [summarize_quality_records]; simp only [if_neg h],
      fun h => by rw [summarize_quality_records]; simp only [if_pos h],
      fun h => by rw [summarize_quality_records]; simp only [if_neg h],
      fun h => by rw [summarize_quality_records]; simp only [if_pos h]⟩

/-- Witness for the amended C8: a zero-denominator summary yields the
defined ratio 0, a concrete non-zero one yields the quotient (the
spec's own tile example: count 100, passing 80, pass rate 0.8). -/
theorem summary_ratio_zero_guard_witness :
    TileMetricSummary.pass_rate ⟨0, 0, 0, 0⟩ = 0
    ∧ TileMetricSummary.pass_rate ⟨0, 0, 100, 80⟩ = 80 / 100
    ∧ (summarize_tile_records []).pass_rate = none :=
  ⟨(summary_ratio_zero_guard.1 ⟨0, 0, 0, 0⟩).1 rfl,
    (summary_ratio_zero_guard.1 ⟨0, 0, 100, 80⟩).2.1 (by norm_num),
    (summary_ratio_zero_guard.2.2.2.1 []).1 (by norm_num [tileFold])⟩

/-! ### Record equality (claim C9)

`BaseMetricRecord.__eq__` in `miseqinteropreader/models.py` dumps both
records with `model_dump()` and walks `model_fields`, comparing
float-annotated fields with `math.isclose(..., rel_tol=1e-7)` and all
other fields with `==`.  A dump is modelled as an association list from
field name to value; field values are Python ints or floats (floats
over `ℚ`, the `1e-7` literal as the exact rational).  A `none` result
models an exception escaping the comparison (`KeyError` on a missing
dump key, `TypeError` inside `isclose`). -/

/-- Value of one dumped field. -/
inductive MField where
  | int (z : Int)
  | float (q : ℚ)
  deriving DecidableEq, Repr

/-- Dictionary lookup `d[k]`; `none` is a `KeyError`. -/
def lookupKey : List (String × MField) → String → Option MField
  | [], _ => none
  | (k, v) :: rest, key => if key = k then some v else lookupKey rest key

/-- Embedding of `math.isclose(a, b, rel_tol=1e-7)` (with the default
`abs_tol=0.0`): `abs(a-b) <= rel_tol * max(abs(a), abs(b))`. -/
def isclose (a b : ℚ) : Bool :=
  decide (|a - b| ≤ 1 / 10 ^ 7 * max |a| |b|)

/-- One field comparison of `__eq__`: `isclose` when the annotation is
`float` (a `TypeError` if a value is not a number), `==` otherwise. -/
def fieldCompare (isFloat : Bool) (a b : MField) : Option Bool :=
  if isFloat then
    match a, b with
    | .float x, .float y => some (isclose x y)
    | _, _ => none
  else some (a == b)

/-- Embedding of the `__eq__` loop over `model_fields`: each field name
is looked up in both dumps (a missing key raises), compared, and the
results conjoined by `all(...)`. -/
def recordEq (kind : List (String × Bool))
    (dself dother : List (String × MField)) : Option Bool :=
  match kind with
  | [] => some true
  | (k, isF) :: rest =>
    match lookupKey dself k, lookupKey dother k with
    | some a, some b =>
      match fieldCompare isF a b with
      | none => none
      | some c =>
        match recordEq rest dself dother with
        | none => none
        | some cs => some (c && cs)
    | _, _ => none

/-- Default pydantic `model_dump()` of a record: each declared field
under its own name, in declaration order.  All record models except
`QualityRecord` dump this way (the `ExtractionRecord` dump carries an
extra computed `datetime` key, which no `model_fields` lookup ever
touches). -/
def standardDump (kind : List (String × Bool)) (vals : List MField) :
    List (String × MField) :=
  (kind.map Prod.fst).zip vals

/-- Serialized key of one histogram bin in `QualityRecord`'s custom
serializer: the Python format `f"q{k:02}"` for `k` counted from 1. -/
def qKey (k : Nat) : String :=
  if k < 10 then "q0" ++ toString k else "q" ++ toString k

/-- Dump of a `QualityRecord` under its `@model_serializer`: `lane`,
`tile`, `cycle`, then one key per histogram bin — the declared
`quality_bins` field itself is absent. -/
def qualityRecordDump (lane tile cycle : Int) (bins : List Int) :
    List (String × MField) :=
  [("lane", .int lane), ("tile", .int tile), ("cycle", .int cycle)]
    ++ bins.enum.map (fun p => (qKey (p.1 + 1), MField.int p.2))

/-- Declared `model_fields` (name, is-float-annotated) of the record
models in `miseqinteropreader/models.py`. -/
def tileMetricFields : List (String × Bool) :=
  [("lane", false), ("tile", false), ("metric_code", false),
    ("metric_value", true)]

def errorFields : List (String × Bool) :=
  [("lane", false), ("tile", false), ("cycle", false),
    ("error_rate", true), ("num_0_errors", false), ("num_1_errors", false),
    ("num_2_errors", false), ("num_3_errors", false),
    ("num_4_errors", false)]

def correctedIntensityFields : List (String × Bool) :=
  [("lane", false), ("tile", false), ("cycle", false),
    ("avg_cycle_intensity", false), ("avg_corrected_intensity_a", false),
    ("avg_corrected_intensity_c", false),
    ("avg_corrected_intensity_g", false),
    ("avg_corrected_intensity_t", false),
    ("avg_corrected_cluster_intensity_a", false),
    ("avg_corrected_cluster_intensity_c", false),
    ("avg_corrected_cluster_intensity_g", false),
    ("avg_corrected_cluster_intensity_t", false),
    ("num_base_calls_none", false), ("num_base_calls_a", false),
    ("num_base_calls_c", false), ("num_base_calls_g", false),
    ("num_base_calls_t", false), ("snr", true)]

def extractionFields : List (String × Bool) :=
  [("lane", false), ("tile", false), ("cycle", false), ("focus_a", true),
    ("focus_c", true), ("focus_g", true), ("focus_t", true),
    ("max_intensity_a", false), ("max_intensity_c", false),
    ("max_intensity_g", false), ("max_intensity_t", false),
    ("datestamp", false)]

def imageFields : List (String × Bool) :=
  [("lane", false), ("tile", false), ("cycle", false),
    ("channel_number", false), ("min_contrast", false),
    ("max_contrast", false)]

def indexFields : List (String × Bool) :=
  [("lane", false), ("tile", false), ("cycle", false)]

def phasingFields : List (String × Bool) :=
  [("lane", false), ("tile", false), ("cycle", false),
    ("phasing_weight", true), ("prephasing_weight", true)]

/-- Declared fields of `QualityRecord` — note `quality_bins` is a
declared field, although the custom serializer never dumps it. -/
def qualityFields : List (String × Bool) :=
  [("lane", false), ("tile", false), ("cycle", false),
    ("quality_bins", false)]

/-- Record kinds whose `model_dump()` is the standard field dump. -/
def standardDumpKinds : List (List (String × Bool)) :=
  [tileMetricFields, errorFields, correctedIntensityFields,
    extractionFields, imageFields, indexFields, phasingFields]

/-- Annotation/value agreement of one field: float-annotated fields
hold floats, other fields hold ints, as in the source models. -/
def typedField : Bool → MField → Bool
  | true, .float _ => true
  | false, .int _ => true
  | _, _ => false

/-- Values `vals` fit the kind's annotations, one per declared field. -/
def typedRow : List (String × Bool) → List MField → Bool
  | [], [] => true
  | (_, isF) :: ks, v :: vs => typedField isF v && typedRow ks vs
  | _, _ => false

/-- Result of one field comparison as `__eq__` computes it on
well-typed values. -/
def eqField : Bool → MField → MField → Bool
  | true, .float x, .float y => isclose x y
  | false, a, b => a == b
  | true, _, _ => false

/-- Pointwise comparison outcome of the whole `__eq__` loop. -/
def eqRow : List (String × Bool) → List MField → List MField → Bool
  | [], [], [] => true
  | (_, isF) :: ks, a :: vs, b :: ws => eqField isF a b && eqRow ks vs ws
  | _, _, _ => false

/-- Claim hypothesis, close side: the two value rows differ only in
float fields, each by strictly less than relative tolerance `1e-7`. -/
def closeField : Bool → MField → MField → Bool
  | true, .float x, .float y =>
    x == y || decide (|x - y| < 1 / 10 ^ 7 * max |x| |y|)
  | false, a, b => a == b
  | true, _, _ => false

def closeRow : List (String × Bool) → List MField → List MField → Bool
  | [], [], [] => true
  | (_, isF) :: ks, a :: vs, b :: ws =>
    closeField isF a b && closeRow ks vs ws
  | _, _, _ => false

/-- Claim hypothesis, far side: some float field differs by strictly
more than the relative tolerance, or some non-float field differs. -/
def farField : Bool → MField → MField → Bool
  | true, .float x, .float y => decide (1 / 10 ^ 7 * max |x| |y| < |x - y|)
  | false, a, b => a != b
  | true, _, _ => false

def farRow : List (String × Bool) → List MField → List MField → Bool
  | [], _, _ => false
  | (_, isF) :: ks, a :: vs, b :: ws => farField isF a b || farRow ks vs ws
  | _, _, _ => false

theorem fieldCompare_typed (isF : Bool) (a b : MField)
    (ha : typedField isF a = true) (hb : typedField isF b = true) :
    fieldCompare isF a b = some (eqField isF a b) := by
  cases isF
  · rfl
  · cases a with
    | int z => simp [typedField] at ha
    | float x =>
      cases b with
      | int z => simp [typedField] at hb
      | float y => rfl

theorem recordEq_cons (k : String) (isF : Bool) (ks : List (String × Bool))
    (a b : MField) (d₁ d₂ : List (String × MField)) :
    recordEq ((k, isF) :: ks) ((k, a) :: d₁) ((k, b) :: d₂)
      = match fieldCompare isF a b with
        | none => none
        | some c =>
          match recordEq ks ((k, a) :: d₁) ((k, b) :: d₂) with
          | none => none
          | some cs => some (c && cs) := by
  simp only [recordEq, lookupKey, eq_self_iff_true, if_true]

theorem recordEq_cons_irrelevant (ks : List (String × Bool)) (k : String)
    (a b : MField) (d₁ d₂ : List (String × MField))
    (hk : k ∉ ks.map Prod.fst) :
    recordEq ks ((k, a) :: d₁) ((k, b) :: d₂) = recordEq ks d₁ d₂ := by
  induction ks with
  | nil => rfl
  | cons p ps ih =>
    obtain ⟨key, isF⟩ := p
    have hne : ¬ key = k := by
      intro h
      apply hk
      simp [h]
    have hk2 : k ∉ ps.map Prod.fst := by
      intro h
      apply hk
      simp [h]
    simp only [recordEq, lookupKey]
    rw [if_neg hne, if_neg hne, ih hk2]

/-- For every record kind with a standard dump and well-typed values,
`__eq__` returns normally and computes the pointwise tolerant
comparison. -/
theorem recordEq_standardDump (kind : List (String × Bool))
    (hnd : (kind.map Prod.fst).Nodup) :
    ∀ v₁ v₂ : List MField, typedRow kind v₁ = true →
      typedRow kind v₂ = true →
      recordEq kind (standardDump kind v₁) (standardDump kind v₂)
        = some (eqRow kind v₁ v₂) := by
  induction kind with
  | nil =>
    intro v₁ v₂ h₁ h₂
    cases v₁ with
    | nil =>
      cases v₂ with
      | nil => rfl
      | cons b ws => simp [typedRow] at h₂
    | cons a vs => simp [typedRow] at h₁
  | cons p ks ih =>
    obtain ⟨k, isF⟩ := p
    intro v₁ v₂ h₁ h₂
    cases v₁ with
    | nil => simp [typedRow] at h₁
    | cons a vs =>
      cases v₂ with
      | nil => simp [typedRow] at h₂
      | cons b ws =>
        simp only [typedRow, Bool.and_eq_true] at h₁ h₂
        obtain ⟨ha, hvs⟩ := h₁
        obtain ⟨hb, hws⟩ := h₂
        simp only [List.map_cons, List.nodup_cons] at hnd
        obtain ⟨hknot, hnd2⟩ := hnd
        simp only [standardDump, List.map_cons, List.zip_cons_cons]
        rw [recordEq_cons, fieldCompare_typed isF a b ha hb,
          recordEq_cons_irrelevant ks k a b _ _ hknot,
          show recordEq ks ((ks.map Prod.fst).zip vs)
              ((ks.map Prod.fst).zip ws) = some (eqRow ks vs ws)
            from ih hnd2 vs ws hvs hws]
        rfl

theorem closeField_eqField (isF : Bool) (a b : MField)
    (h : closeField isF a b = true) : eqField isF a b = true := by
  cases isF
  · simpa [closeField, eqField] using h
  · cases a with
    | int z => simp [closeField] at h
    | float x =>
      cases b with
      | int z => simp [closeField] at h
      | float y =>
        simp only [closeField, Bool.or_eq_true, beq_iff_eq,
          decide_eq_true_eq] at h
        simp only [eqField, isclose, decide_eq_true_eq]
        rcases h with h | h
        · rw [h]
          simp only [sub_self, abs_zero]
          positivity
        · exact le_of_lt h

theorem farField_eqField (isF : Bool) (a b : MField)
    (h : farField isF a b = true) : eqField isF a b = false := by
  cases isF
  · simp only [farField, bne_iff_ne, ne_eq] at h
    simp only [eqField, beq_eq_false_iff_ne, ne_eq]
    exact h
  · cases a with
    | int z => simp [farField] at h
    | float x =>
      cases b with
      | int z => simp [farField] at h
      | float y =>
        simp only [farField, decide_eq_true_eq] at h
        simp only [eqField, isclose, decide_eq_false_iff_not, not_le]
        exact h

theorem closeRow_eqRow :
    ∀ (kind : List (String × Bool)) (v₁ v₂ : List MField),
      closeRow kind v₁ v₂ = true → eqRow kind v₁ v₂ = true := by
  intro kind
  induction kind with
  | nil =>
    intro v₁ v₂ h
    cases v₁ with
    | nil =>
      cases v₂ with
      | nil => rfl
      | cons b ws => simp [closeRow] at h
    | cons a vs =>
      cases v₂ <;> simp [closeRow] at h
  | cons p ks ih =>
    obtain ⟨k, isF⟩ := p
    intro v₁ v₂ h
    cases v₁ with
    | nil => simp [closeRow] at h
    | cons a vs =>
      cases v₂ with
      | nil => simp [closeRow] at h
      | cons b ws =>
        simp only [closeRow, Bool.and_eq_true] at h
        simp only [eqRow, Bool.and_eq_true]
        exact ⟨closeField_eqField isF a b h.1, ih vs ws h.2⟩

theorem farRow_eqRow :
    ∀ (kind : List (String × Bool)) (v₁ v₂ : List MField),
      farRow kind v₁ v₂ = true → eqRow kind v₁ v₂ = false := by
  intro kind
  induction kind with
  | nil =>
    intro v₁ v₂ h
    simp [farRow] at h
  | cons p ks ih =>
    obtain ⟨k, isF⟩ := p
    intro v₁ v₂ h
    cases v₁ with
    | nil => simp [farRow] at h
    | cons a vs =>
      cases v₂ with
      | nil => simp [farRow] at h
      | cons b ws =>
        simp only [farRow, Bool.or_eq_true] at h
        simp only [eqRow, Bool.and_eq_false_iff]
        rcases h with h | h
        · exact Or.inl (farField_eqField isF a b h)
        · exact Or.inr (ih vs ws h)

/-- Claim C9 counterexample.  Two `QualityRecord` instances with
identical fields do not compare equal: the `__eq__` loop looks up the
declared `quality_bins` field in the custom serializer's dump, which
only holds `lane`, `tile`, `cycle` and the per-bin keys, so the
comparison dies with a `KeyError` instead of returning `True`. -/
theorem record_eq_quality_counterexample :
    recordEq qualityFields
        (qualityRecordDump 1 2 3 (List.replicate 50 0))
        (qualityRecordDump 1 2 3 (List.replicate 50 0)) = none := by
  decide

/-- Claim C9 as amended.  For any two records of the same kind other
than `QualityRecord` (whose custom flat serializer omits the
`quality_bins` key from the dump, making `__eq__` raise a `KeyError`):
if they differ only in floating-point fields and each such field
differs by less than relative tolerance `1e-7`, they compare equal; if
any float field differs by more than that relative tolerance, or any
non-float field differs at all, they compare unequal. -/
theorem record_eq_tolerance :
    ∀ kind ∈ standardDumpKinds, ∀ v₁ v₂ : List MField,
      typedRow kind v₁ = true → typedRow kind v₂ = true →
      (closeRow kind v₁ v₂ = true →
        recordEq kind (standardDump kind v₁) (standardDump kind v₂)
          = some true)
      ∧ (farRow kind v₁ v₂ = true →
        recordEq kind (standardDump kind v₁) (standardDump kind v₂)
          = some false) := by
  intro kind hkind v₁ v₂ h₁ h₂
  have hnd : (kind.map Prod.fst).Nodup := by
    fin_cases hkind <;> decide
  constructor
  · intro hc
    rw [recordEq_standardDump kind hnd v₁ v₂ h₁ h₂,
      closeRow_eqRow kind v₁ v₂ hc]
  · intro hf
    rw [recordEq_standardDump kind hnd v₁ v₂ h₁ h₂,
      farRow_eqRow kind v₁ v₂ hf]

/-- Witness for the amended C9: two tile records with identical fields
compare equal; records whose float field jumps from 1 to 2, or whose
int `tile` field differs, compare unequal. -/
theorem record_eq_tolerance_witness :
    recordEq tileMetricFields
        (standardDump tileMetricFields
          [.int 1, .int 2, .int 3, .float 1])
        (standardDump tileMetricFields
          [.int 1, .int 2, .int 3, .float 1])
      = some true
    ∧ recordEq tileMetricFields
        (standardDump tileMetricFields
          [.int 1, .int 2, .int 3, .float 1])
        (standardDump tileMetricFields
          [.int 1, .int 2, .int 3, .float 2])
      = some false
    ∧ recordEq tileMetricFields
        (standardDump tileMetricFields
          [.int 1, .int 2, .int 3, .float 1])
        (standardDump tileMetricFields
          [.int 1, .int 9, .int 3, .float 1])
      = some false :=
  ⟨(record_eq_tolerance tileMetricFields (by decide)
      [.int 1, .int 2, .int 3, .float 1]
      [.int 1, .int 2, .int 3, .float 1]
      (by decide) (by decide)).1 (by decide),
    (record_eq_tolerance tileMetricFields (by decide)
      [.int 1, .int 2, .int 3, .float 1]
      [.int 1, .int 2, .int 3, .float 2]
      (by decide) (by decide)).2 (by
        simp only [tileMetricFields, farRow, farField, Bool.or_eq_true,
          bne_iff_ne, ne_eq, decide_eq_true_eq]
        norm_num),
    (record_eq_tolerance tileMetricFields (by decide)
      [.int 1, .int 2, .int 3, .float 1]
      [.int 1, .int 9, .int 3, .float 1]
      (by decide) (by decide)).2 (by decide)⟩
